import Mathlib

/-!
Shallow embedding of the chess engine core of `src/chess_game.py`:
board representation, pseudo-legal and legal move generation,
check detection, move application with auto-queen promotion,
material evaluation, the one-ply AI move selector, and the
terminal-state classification of `Game.check_game_end`.

Conventions of the embedding:
* A board is a total function from in-bounds squares (`Fin 8 × Fin 8`)
  to `Option Piece`; Python's 8×8 list-of-lists with its per-access
  `in_bounds` guards is mirrored by computing candidate coordinates in
  `Int` and converting them to squares with `toSquare?`, which succeeds
  exactly when the source's `in_bounds(r, c)` is true.
* Python lists built by `append` inside loops become `List` values
  threaded through `List.foldl`, preserving the source's ordering; the
  loop bodies are named step functions.
* The `while in_bounds(...)` ray walk of `slide_moves` is modelled by
  structural recursion on a fuel of 8, which strictly exceeds the
  longest possible in-bounds ray (7 squares), so the fuelled recursion
  performs exactly the iterations of the source's loop.
* Python's `random.choice(seq)` is modelled by an extra index parameter
  `k`, with the selected element `seq[k % len(seq)]`; every possible
  choice of the random generator corresponds to some `k`.
-/

namespace ChessGame

/-- Piece colors, the `'w'` and `'b'` tags of the source. -/
inductive Color where
  | w
  | b
deriving DecidableEq

/-- Piece kinds, the `'K','Q','R','B','N','P'` tags of the source. -/
inductive Kind where
  | K
  | Q
  | R
  | B
  | N
  | P
deriving DecidableEq

/-- A piece, `Piece(color, kind)` of the source. -/
structure Piece where
  color : Color
  kind : Kind
deriving DecidableEq

/-- An in-bounds board coordinate `(row, column)`. -/
abbrev Square := Fin 8 × Fin 8

/-- A board, `Board = List[List[Optional[Piece]]]` of the source: an 8×8
grid of optional pieces. -/
abbrev Board := Square → Option Piece

/-- A move, `Move = ((r1,c1),(r2,c2))` of the source. -/
abbrev Move := Square × Square

/-- Source table `PIECE_VALUES = {"K": 0, "Q": 9, "R": 5, "B": 3, "N": 3,
"P": 1}`. -/
def piece_value : Kind → Int
  | .K => 0
  | .Q => 9
  | .R => 5
  | .B => 3
  | .N => 3
  | .P => 1

/-- The opponent color, `opp = "b" if color == "w" else "w"` (inline in
`is_in_check`). -/
def opp_color (color : Color) : Color :=
  if color = .w then .b else .w

/-- Source predicate `in_bounds(r, c)`: `0 <= r < ROWS and 0 <= c < COLS`. -/
def in_bounds (r c : Int) : Prop :=
  0 ≤ r ∧ r < 8 ∧ 0 ≤ c ∧ c < 8

instance (r c : Int) : Decidable (in_bounds r c) := by
  unfold in_bounds; infer_instance

/-- Conversion of integer coordinates to a `Square`, succeeding exactly
when `in_bounds` holds. -/
def toSquare? (r c : Int) : Option Square :=
  if h : in_bounds r c then
    some (⟨r.toNat, by unfold in_bounds at h; omega⟩,
          ⟨c.toNat, by unfold in_bounds at h; omega⟩)
  else
    none

/-- The squares `(r, c)` in the row-major order of the source's
`for r in range(ROWS): for c in range(COLS)` loops. -/
def allSquares : List Square :=
  (List.finRange 8).flatMap fun r => (List.finRange 8).map fun c => (r, c)

/-- Back-rank piece order `["R", "N", "B", "Q", "K", "B", "N", "R"]` of
`initial_board`. -/
def back_rank_order (c : Fin 8) : Kind :=
  if c.val = 0 then .R
  else if c.val = 1 then .N
  else if c.val = 2 then .B
  else if c.val = 3 then .Q
  else if c.val = 4 then .K
  else if c.val = 5 then .B
  else if c.val = 6 then .N
  else .R

/-- Source `initial_board()`: Black back rank on row 0, Black pawns on
row 1, White pawns on row 6, White back rank on row 7. -/
def initial_board : Board := fun sq =>
  if sq.1.val = 0 then some ⟨.b, back_rank_order sq.2⟩
  else if sq.1.val = 1 then some ⟨.b, .P⟩
  else if sq.1.val = 6 then some ⟨.w, .P⟩
  else if sq.1.val = 7 then some ⟨.w, back_rank_order sq.2⟩
  else none

/-- Source `find_king(board, color)`: the first square in row-major order
holding `color`'s king, else `None`. -/
def find_king (board : Board) (color : Color) : Option Square :=
  allSquares.find? fun sq =>
    match board sq with
    | some p => p.color = color ∧ p.kind = .K
    | none => false

/-- Source `clone_board(board)`: a value-level copy, the identity on
immutable board values. -/
def clone_board (board : Board) : Board :=
  fun sq => board sq

/-- Source `make_move(board, move)`: clone, move the piece from source to
destination, clear the source, then auto-queen a pawn reaching the
opposite back rank (row 0 for White, row `ROWS - 1 = 7` for Black). -/
def make_move (board : Board) (move : Move) : Board :=
  let newb := clone_board board
  let piece := newb move.1
  let newb := Function.update newb move.1 none
  let newb := Function.update newb move.2 piece
  match piece with
  | some p =>
    if p.kind = .P then
      let newb :=
        if p.color = .w ∧ move.2.1.val = 0 then
          Function.update newb move.2 (some ⟨.w, .Q⟩)
        else newb
      if p.color = .b ∧ move.2.1.val = 7 then
        Function.update newb move.2 (some ⟨.b, .Q⟩)
      else newb
    else newb
  | none => newb

/-- Loop body of the pawn-capture loop of `pawn_moves` (`for dc in (-1, 1)`):
append the diagonal square when it holds an opposing piece. -/
def pawn_capture_step (board : Board) (sq : Square) (p : Piece) (r c dir : Int)
    (moves : List Move) (dc : Int) : List Move :=
  match toSquare? (r + dir) (c + dc) with
  | some nsq =>
    match board nsq with
    | some q => if q.color ≠ p.color then moves ++ [(sq, nsq)] else moves
    | none => moves
  | none => moves

/-- Source `pawn_moves(board, r, c, p, moves)`: one step forward onto an
empty square, two steps from the start row through empty squares (the
source's `board[nr2][c]` access happens only when `r == start_row`, so it
is in bounds), then the two diagonal captures, in the source's order. -/
def pawn_moves (board : Board) (sq : Square) (p : Piece) (moves : List Move) :
    List Move :=
  let r : Int := sq.1.val
  let c : Int := sq.2.val
  let dir : Int := if p.color = .w then -1 else 1
  let start_row : Int := if p.color = .w then 6 else 1
  let moves :=
    match toSquare? (r + dir) c with
    | some sq1 =>
      if board sq1 = none then
        let moves := moves ++ [(sq, sq1)]
        if r = start_row then
          match toSquare? (r + 2 * dir) c with
          | some sq2 => if board sq2 = none then moves ++ [(sq, sq2)] else moves
          | none => moves
        else moves
      else moves
    | none => moves
  ([-1, 1] : List Int).foldl (pawn_capture_step board sq p r c dir) moves

/-- Loop body shared by `knight_moves` and `king_moves`: append the offset
square when it is empty or holds an opposing piece. -/
def offset_step (board : Board) (sq : Square) (p : Piece) (r c : Int)
    (moves : List Move) (d : Int × Int) : List Move :=
  match toSquare? (r + d.1) (c + d.2) with
  | some nsq =>
    match board nsq with
    | some q => if q.color ≠ p.color then moves ++ [(sq, nsq)] else moves
    | none => moves ++ [(sq, nsq)]
  | none => moves

/-- Source `knight_moves(board, r, c, p, moves)`: the fixed 8-jump table. -/
def knight_moves (board : Board) (sq : Square) (p : Piece) (moves : List Move) :
    List Move :=
  ([(2, 1), (2, -1), (-2, 1), (-2, -1), (1, 2), (1, -2), (-1, 2), (-1, -2)] :
      List (Int × Int)).foldl
    (offset_step board sq p sq.1.val sq.2.val) moves

/-- The `while in_bounds(nr, nc)` ray walk of `slide_moves`, for one delta:
an empty square is appended and the walk continues, an opposing piece is
appended and the walk stops, an own piece stops the walk. Fuel 8 exceeds
the longest possible in-bounds ray (7 squares), so the fuelled recursion
performs exactly the iterations of the source's while loop. -/
def slide_ray (board : Board) (sq : Square) (pcolor : Color) (dr dc : Int) :
    Int → Int → Nat → List Move
  | _, _, 0 => []
  | nr, nc, fuel + 1 =>
    match toSquare? nr nc with
    | none => []
    | some nsq =>
      match board nsq with
      | none => (sq, nsq) :: slide_ray board sq pcolor dr dc (nr + dr) (nc + dc) fuel
      | some q => if q.color ≠ pcolor then [(sq, nsq)] else []

/-- Source `slide_moves(board, r, c, p, moves, deltas)`. -/
def slide_moves (board : Board) (sq : Square) (p : Piece) (moves : List Move)
    (deltas : List (Int × Int)) : List Move :=
  deltas.foldl
    (fun moves d =>
      moves ++
        slide_ray board sq p.color d.1 d.2 (sq.1.val + d.1) (sq.2.val + d.2) 8)
    moves

/-- Source `bishop_moves`: the four diagonal deltas. -/
def bishop_moves (board : Board) (sq : Square) (p : Piece) (moves : List Move) :
    List Move :=
  slide_moves board sq p moves [(1, 1), (1, -1), (-1, 1), (-1, -1)]

/-- Source `rook_moves`: the four orthogonal deltas. -/
def rook_moves (board : Board) (sq : Square) (p : Piece) (moves : List Move) :
    List Move :=
  slide_moves board sq p moves [(1, 0), (-1, 0), (0, 1), (0, -1)]

/-- Source `queen_moves`: diagonal then orthogonal deltas. -/
def queen_moves (board : Board) (sq : Square) (p : Piece) (moves : List Move) :
    List Move :=
  slide_moves board sq p moves
    [(1, 1), (1, -1), (-1, 1), (-1, -1), (1, 0), (-1, 0), (0, 1), (0, -1)]

/-- Source `king_moves(board, r, c, p, moves)`: the 8 neighbors in the
source's `dr`-outer/`dc`-inner order, skipping `(0, 0)`. -/
def king_moves (board : Board) (sq : Square) (p : Piece) (moves : List Move) :
    List Move :=
  ([(-1, -1), (-1, 0), (-1, 1), (0, -1), (0, 1), (1, -1), (1, 0), (1, 1)] :
      List (Int × Int)).foldl
    (offset_step board sq p sq.1.val sq.2.val) moves

/-- Loop body of `generate_pseudo_legal_moves`: dispatch on the piece kind
at a source square (skipping empty squares and opposing pieces). -/
def gen_step (board : Board) (color : Color) (moves : List Move) (sq : Square) :
    List Move :=
  match board sq with
  | none => moves
  | some p =>
    if p.color = color then
      match p.kind with
      | .P => pawn_moves board sq p moves
      | .N => knight_moves board sq p moves
      | .B => bishop_moves board sq p moves
      | .R => rook_moves board sq p moves
      | .Q => queen_moves board sq p moves
      | .K => king_moves board sq p moves
    else moves

/-- Source `generate_pseudo_legal_moves(board, color)`: row-major scan of
the board, dispatching on the piece kind at each source square. -/
def generate_pseudo_legal_moves (board : Board) (color : Color) : List Move :=
  allSquares.foldl (gen_step board color) []

/-- Source `is_square_attacked(board, target, by_color)`: some pseudo-legal
move of `by_color` has `target` as its destination. -/
def is_square_attacked (board : Board) (target : Square) (by_color : Color) :
    Bool :=
  (generate_pseudo_legal_moves board by_color).any fun m => m.2 = target

/-- Source `is_in_check(board, color)`: `False` when the king is absent,
else whether the opposing color attacks the king's square. -/
def is_in_check (board : Board) (color : Color) : Bool :=
  match find_king board color with
  | none => false
  | some king_pos => is_square_attacked board king_pos (opp_color color)

/-- Source `generate_legal_moves(board, color)`: keep the pseudo-legal
moves whose application does not leave `color`'s king in check. -/
def generate_legal_moves (board : Board) (color : Color) : List Move :=
  (generate_pseudo_legal_moves board color).filter fun m =>
    !is_in_check (make_move board m) color

/-- Source `evaluate_material(board)`: signed sum of piece values,
positive for White, negative for Black. -/
def evaluate_material (board : Board) : Int :=
  allSquares.foldl
    (fun score sq =>
      match board sq with
      | some p =>
        score + (if p.color = .w then piece_value p.kind else -piece_value p.kind)
      | none => score)
    0

/-- Loop body of `ai_choose_move`: update `(best_score, best_moves)` with
the score `sc` of move `m` exactly as the source does
(`if best_score is None or sc > best_score: ... elif sc == best_score: ...`). -/
def ai_step (score : Move → Int) (acc : Option Int × List Move) (m : Move) :
    Option Int × List Move :=
  let sc := score m
  match acc with
  | (none, _) => (some sc, [m])
  | (some bs, bmvs) =>
    if bs < sc then (some sc, [m])
    else if sc = bs then (some bs, bmvs ++ [m])
    else (some bs, bmvs)

/-- Placeholder move used only to give `List.getD` a default; every use
below indexes a list proved non-empty. -/
def dummy_move : Move := ((0, 0), (0, 0))

/-- Source `ai_choose_move(board, color)`: `None` when no legal move
exists, else a maximal-score move for the one-ply material evaluation
(signed by `sign = 1 if color == "w" else -1`). Python's `random.choice`
is modelled by the index parameter `k`, selecting element `k % length`. -/
def ai_choose_move (board : Board) (color : Color) (k : Nat) : Option Move :=
  let legal := generate_legal_moves board color
  if legal.isEmpty then none
  else
    let sign : Int := if color = .w then 1 else -1
    let acc := legal.foldl
      (ai_step fun m => evaluate_material (make_move board m) * sign)
      (none, [])
    let best_moves := acc.2
    if best_moves.isEmpty then some (legal.getD (k % legal.length) dummy_move)
    else some (best_moves.getD (k % best_moves.length) dummy_move)

/-- Terminal classification produced by `Game.check_game_end`. -/
inductive GameStatus where
  | Ongoing
  | Checkmate (winner : Color)
  | Stalemate
deriving DecidableEq

/-- Source `Game.check_game_end`, as a pure classification of (board,
side to move): no legal moves and in check is checkmate won by the
opposite color (`"White" if self.turn == "b" else "Black"` in the
source's result text), no legal moves out of check is stalemate,
otherwise the game goes on. -/
def check_game_end (board : Board) (turn : Color) : GameStatus :=
  let legal := generate_legal_moves board turn
  if legal.isEmpty then
    if is_in_check board turn then
      .Checkmate (if turn = .b then .w else .b)
    else
      .Stalemate
  else
    .Ongoing

/-- A board with no pieces at all (used as a concrete malformed board). -/
def empty_board : Board := fun _ => none

/-- Concrete checkmate position: White king h1, Black queen g2, Black
king f3, White to move. -/
def mate_board : Board := fun sq =>
  if sq = ((7 : Fin 8), (7 : Fin 8)) then some ⟨.w, .K⟩
  else if sq = ((6 : Fin 8), (6 : Fin 8)) then some ⟨.b, .Q⟩
  else if sq = ((5 : Fin 8), (5 : Fin 8)) then some ⟨.b, .K⟩
  else none

/-- Concrete stalemate position: Black king h8, White king f7, White
queen g6, Black to move. -/
def stale_board : Board := fun sq =>
  if sq = ((0 : Fin 8), (7 : Fin 8)) then some ⟨.b, .K⟩
  else if sq = ((1 : Fin 8), (5 : Fin 8)) then some ⟨.w, .K⟩
  else if sq = ((2 : Fin 8), (6 : Fin 8)) then some ⟨.w, .Q⟩
  else none

/-- Concrete board holding a single White pawn already on row 0. -/
def lone_pawn_row0_board : Board := fun sq =>
  if sq = ((0 : Fin 8), (0 : Fin 8)) then some ⟨.w, .P⟩ else none

/-- Concrete board holding a single White pawn on row 1, one step from
promotion. -/
def promo_board : Board := fun sq =>
  if sq = ((1 : Fin 8), (0 : Fin 8)) then some ⟨.w, .P⟩ else none

/-- Concrete board with a White pawn on row 1 and a Black knight on row 0
one file over, so the pawn can capture the knight and promote. -/
def promo_capture_board : Board := fun sq =>
  if sq = ((1 : Fin 8), (0 : Fin 8)) then some ⟨.w, .P⟩
  else if sq = ((0 : Fin 8), (1 : Fin 8)) then some ⟨.b, .N⟩
  else none

/-- Concrete board with a White rook and a Black knight on the same row. -/
def rook_knight_board : Board := fun sq =>
  if sq = ((4 : Fin 8), (4 : Fin 8)) then some ⟨.w, .R⟩
  else if sq = ((4 : Fin 8), (0 : Fin 8)) then some ⟨.b, .N⟩
  else none

/-- Concrete board holding a single White rook. -/
def lone_rook_board : Board := fun sq =>
  if sq = ((3 : Fin 8), (3 : Fin 8)) then some ⟨.w, .R⟩ else none

/-- Specification predicate (for C9): the destination square of move `m`
does not hold a piece of color `color`. -/
def dest_ok (board : Board) (color : Color) (m : Move) : Prop :=
  ∀ q, board m.2 = some q → q.color ≠ color

/-- Contribution of one square to `evaluate_material`: the signed piece
value, `0` for an empty square. -/
def square_score : Option Piece → Int
  | some p => if p.color = .w then piece_value p.kind else -piece_value p.kind
  | none => 0

end ChessGame

namespace ChessGame

/-- Helper: `clone_board` is the identity on board values. -/
theorem clone_board_eq (board : Board) : clone_board board = board := rfl

/-- Helper: the result of `make_move` is the input board updated at the
move's source and destination squares only (for some destination value). -/
theorem make_move_shape (board : Board) (m : Move) :
    ∃ v, make_move board m =
      Function.update (Function.update board m.1 none) m.2 v := by
  rcases hb : board m.1 with _ | p
  · exact ⟨none, by simp [make_move, clone_board_eq, hb]⟩
  · by_cases hP : p.kind = .P
    · by_cases hw : p.color = .w ∧ m.2.1.val = 0
      · by_cases hb2 : p.color = .b ∧ m.2.1.val = 7
        · rw [hw.1] at hb2
          exact absurd hb2.1 (by decide)
        · exact ⟨some ⟨.w, .Q⟩, by
            simp [make_move, clone_board_eq, hb, hP, hw, hb2, Function.update_idem]⟩
      · by_cases hb2 : p.color = .b ∧ m.2.1.val = 7
        · exact ⟨some ⟨.b, .Q⟩, by
            simp [make_move, clone_board_eq, hb, hP, hw, hb2, Function.update_idem]⟩
        · exact ⟨some p, by simp [make_move, clone_board_eq, hb, hP, hw, hb2]⟩
    · exact ⟨some p, by simp [make_move, clone_board_eq, hb, hP]⟩

/-- C1: for every board, color, and move of `generate_legal_moves`,
applying the move with `make_move` yields a board on which `is_in_check`
for the mover's color is false. -/
theorem legal_moves_never_self_check (board : Board) (color : Color)
    (m : Move) (hm : m ∈ generate_legal_moves board color) :
    is_in_check (make_move board m) color = false := by
  unfold generate_legal_moves at hm
  simpa using (List.mem_filter.mp hm).2

set_option maxRecDepth 40000 in
/-- Witness for C1: the initial board, White, and the pawn move a2–a3. -/
theorem legal_moves_never_self_check_witness :
    ((((6 : Fin 8), (0 : Fin 8)), ((5 : Fin 8), (0 : Fin 8))) : Move) ∈
        generate_legal_moves initial_board .w ∧
    is_in_check
      (make_move initial_board
        (((6 : Fin 8), (0 : Fin 8)), ((5 : Fin 8), (0 : Fin 8)))) .w = false :=
  ⟨by decide, legal_moves_never_self_check initial_board .w _ (by decide)⟩

/-- C7: when `find_king` returns `none`, `is_in_check` returns `false`
rather than failing. -/
theorem no_king_not_in_check (board : Board) (color : Color)
    (h : find_king board color = none) :
    is_in_check board color = false := by
  unfold is_in_check
  rw [h]

/-- Witness for C7: an empty board has no White king and is not in check. -/
theorem no_king_not_in_check_witness :
    find_king empty_board .w = none ∧ is_in_check empty_board .w = false :=
  ⟨by decide, no_king_not_in_check empty_board .w (by decide)⟩

/-- C10: `make_move` from an empty source square is total, skips the
promotion branch, and empties both the source and the destination squares
(silently erasing any piece at the destination). -/
theorem make_move_empty_source (board : Board) (m : Move)
    (h : board m.1 = none) :
    make_move board m =
      Function.update (Function.update board m.1 none) m.2 none ∧
    make_move board m m.1 = none ∧ make_move board m m.2 = none := by
  have heq : make_move board m =
      Function.update (Function.update board m.1 none) m.2 none := by
    simp [make_move, clone_board_eq, h]
  refine ⟨heq, ?_, ?_⟩
  · rw [heq]
    by_cases h12 : m.1 = m.2
    · rw [h12, Function.update_same]
    · rw [Function.update_noteq h12, Function.update_same]
  · rw [heq, Function.update_same]

/-- Witness for C10: moving from an empty square of a board holding one
rook erases the rook at the destination. -/
theorem make_move_empty_source_witness :
    make_move lone_rook_board
        (((0 : Fin 8), (0 : Fin 8)), ((3 : Fin 8), (3 : Fin 8)))
        ((3 : Fin 8), (3 : Fin 8)) = none :=
  (make_move_empty_source lone_rook_board
    (((0 : Fin 8), (0 : Fin 8)), ((3 : Fin 8), (3 : Fin 8))) (by decide)).2.2

/-- C8 (amended): for a move whose source and destination differ,
`make_move` agrees with the input board on every other square and leaves
the source square empty; the input board itself is untouched (boards are
immutable values in this embedding, so `make_move` returns a new value). -/
theorem make_move_frame (board : Board) (m : Move) (hne : m.1 ≠ m.2) :
    (∀ sq : Square, sq ≠ m.1 → sq ≠ m.2 → make_move board m sq = board sq) ∧
    make_move board m m.1 = none := by
  obtain ⟨v, hv⟩ := make_move_shape board m
  constructor
  · intro sq h1 h2
    rw [hv, Function.update_noteq h2, Function.update_noteq h1]
  · rw [hv, Function.update_noteq hne, Function.update_same]

/-- Counterexample for C8 as stated: for the degenerate in-bounds move
whose source equals its destination, the source square of the result is
not empty — the moved piece stays on it. -/
theorem make_move_frame_counterexample :
    lone_rook_board ((3 : Fin 8), (3 : Fin 8)) = some ⟨.w, .R⟩ ∧
    make_move lone_rook_board
        (((3 : Fin 8), (3 : Fin 8)), ((3 : Fin 8), (3 : Fin 8)))
        ((3 : Fin 8), (3 : Fin 8)) = some ⟨.w, .R⟩ ∧
    ¬ make_move lone_rook_board
        (((3 : Fin 8), (3 : Fin 8)), ((3 : Fin 8), (3 : Fin 8)))
        ((3 : Fin 8), (3 : Fin 8)) = none := by decide

/-- Witness for C8 (amended): moving the lone rook from d5 to d1 leaves
every other square as it was and empties the source. -/
theorem make_move_frame_witness :
    make_move lone_rook_board
        (((3 : Fin 8), (3 : Fin 8)), ((7 : Fin 8), (3 : Fin 8)))
        ((0 : Fin 8), (0 : Fin 8)) = lone_rook_board ((0 : Fin 8), (0 : Fin 8)) ∧
    make_move lone_rook_board
        (((3 : Fin 8), (3 : Fin 8)), ((7 : Fin 8), (3 : Fin 8)))
        ((3 : Fin 8), (3 : Fin 8)) = none := by
  have h := make_move_frame lone_rook_board
    (((3 : Fin 8), (3 : Fin 8)), ((7 : Fin 8), (3 : Fin 8))) (by decide)
  exact ⟨h.1 _ (by decide) (by decide), h.2⟩

/-- C4 (amended): a pawn landing on its promotion row (0 for White, 7 for
Black) becomes a queen of its color at the destination, and — provided
the source and destination squares differ — the source square is empty;
a pawn move to any other row leaves the pawn a pawn at the destination. -/
theorem make_move_pawn_promotion (board : Board) (m : Move) (p : Piece)
    (hsrc : board m.1 = some p) (hP : p.kind = .P) :
    ((p.color = .w ∧ m.2.1.val = 0) ∨ (p.color = .b ∧ m.2.1.val = 7) →
      make_move board m m.2 = some ⟨p.color, .Q⟩ ∧
      (m.1 ≠ m.2 → make_move board m m.1 = none)) ∧
    (¬(p.color = .w ∧ m.2.1.val = 0) → ¬(p.color = .b ∧ m.2.1.val = 7) →
      make_move board m m.2 = some p) := by
  constructor
  · rintro (⟨hw, h0⟩ | ⟨hb2, h7⟩)
    · have heq : make_move board m =
          Function.update (Function.update board m.1 none) m.2
            (some ⟨Color.w, Kind.Q⟩) := by
        simp [make_move, clone_board_eq, hsrc, hP, hw, h0, Function.update_idem]
      refine ⟨by rw [heq, Function.update_same, hw], fun hne => ?_⟩
      rw [heq, Function.update_noteq hne, Function.update_same]
    · have heq : make_move board m =
          Function.update (Function.update board m.1 none) m.2
            (some ⟨Color.b, Kind.Q⟩) := by
        simp [make_move, clone_board_eq, hsrc, hP, hb2, h7, Function.update_idem]
      refine ⟨by rw [heq, Function.update_same, hb2], fun hne => ?_⟩
      rw [heq, Function.update_noteq hne, Function.update_same]
  · intro hnw hnb
    have heq : make_move board m =
        Function.update (Function.update board m.1 none) m.2 (some p) := by
      simp [make_move, clone_board_eq, hsrc, hP, hnw, hnb]
    rw [heq, Function.update_same]

/-- Counterexample for C4 as stated: a White pawn already on row 0 moved
onto its own square promotes in place, so the source square ends up
holding the new queen instead of being empty. -/
theorem pawn_promotion_counterexample :
    lone_pawn_row0_board ((0 : Fin 8), (0 : Fin 8)) = some ⟨.w, .P⟩ ∧
    make_move lone_pawn_row0_board
        (((0 : Fin 8), (0 : Fin 8)), ((0 : Fin 8), (0 : Fin 8)))
        ((0 : Fin 8), (0 : Fin 8)) = some ⟨.w, .Q⟩ ∧
    ¬ make_move lone_pawn_row0_board
        (((0 : Fin 8), (0 : Fin 8)), ((0 : Fin 8), (0 : Fin 8)))
        ((0 : Fin 8), (0 : Fin 8)) = none := by decide

/-- Witness for C4 (amended): a White pawn promoting from a7 to a8 and a
White pawn stepping from a2 to a3 on the initial board. -/
theorem make_move_pawn_promotion_witness :
    (make_move promo_board (((1 : Fin 8), (0 : Fin 8)), ((0 : Fin 8), (0 : Fin 8)))
        ((0 : Fin 8), (0 : Fin 8)) = some ⟨.w, .Q⟩ ∧
      make_move promo_board (((1 : Fin 8), (0 : Fin 8)), ((0 : Fin 8), (0 : Fin 8)))
        ((1 : Fin 8), (0 : Fin 8)) = none) ∧
    make_move initial_board (((6 : Fin 8), (0 : Fin 8)), ((5 : Fin 8), (0 : Fin 8)))
        ((5 : Fin 8), (0 : Fin 8)) = some ⟨.w, .P⟩ := by
  constructor
  · have h := (make_move_pawn_promotion promo_board
      (((1 : Fin 8), (0 : Fin 8)), ((0 : Fin 8), (0 : Fin 8))) ⟨.w, .P⟩
      (by decide) rfl).1 (Or.inl ⟨rfl, rfl⟩)
    exact ⟨h.1, h.2 (by decide)⟩
  · exact (make_move_pawn_promotion initial_board
      (((6 : Fin 8), (0 : Fin 8)), ((5 : Fin 8), (0 : Fin 8))) ⟨.w, .P⟩
      (by decide) rfl).2 (by decide) (by decide)

end ChessGame

namespace ChessGame

set_option maxRecDepth 100000 in
/-- C5: the initial board has exactly 16 White and 16 Black pieces, pawns
across rows 1 (Black) and 6 (White), the back ranks on rows 0 and 7 in
the order Rook, Knight, Bishop, Queen, King, Bishop, Knight, Rook (kings
on column 4), and White has exactly 20 legal moves. -/
theorem initial_board_spec :
    (allSquares.countP fun sq =>
        match initial_board sq with
        | some p => p.color = Color.w
        | none => false) = 16 ∧
    (allSquares.countP fun sq =>
        match initial_board sq with
        | some p => p.color = Color.b
        | none => false) = 16 ∧
    (∀ c : Fin 8, initial_board (1, c) = some ⟨.b, .P⟩ ∧
        initial_board (6, c) = some ⟨.w, .P⟩) ∧
    ((List.finRange 8).map fun c => initial_board (0, c)) =
      [some ⟨.b, .R⟩, some ⟨.b, .N⟩, some ⟨.b, .B⟩, some ⟨.b, .Q⟩,
       some ⟨.b, .K⟩, some ⟨.b, .B⟩, some ⟨.b, .N⟩, some ⟨.b, .R⟩] ∧
    ((List.finRange 8).map fun c => initial_board (7, c)) =
      [some ⟨.w, .R⟩, some ⟨.w, .N⟩, some ⟨.w, .B⟩, some ⟨.w, .Q⟩,
       some ⟨.w, .K⟩, some ⟨.w, .B⟩, some ⟨.w, .N⟩, some ⟨.w, .R⟩] ∧
    initial_board (0, 4) = some ⟨.b, .K⟩ ∧
    initial_board (7, 4) = some ⟨.w, .K⟩ ∧
    (generate_legal_moves initial_board .w).length = 20 := by
  decide

/-- C2: the terminal-state classification of `check_game_end` is Ongoing
when legal moves exist, Checkmate with the opposite color as winner when
there are none and the mover is in check, and Stalemate when there are
none and the mover is not in check. -/
theorem check_game_end_classification (board : Board) (turn : Color) :
    (generate_legal_moves board turn ≠ [] →
      check_game_end board turn = .Ongoing) ∧
    (generate_legal_moves board turn = [] → is_in_check board turn = true →
      check_game_end board turn = .Checkmate (opp_color turn)) ∧
    (generate_legal_moves board turn = [] → is_in_check board turn = false →
      check_game_end board turn = .Stalemate) := by
  refine ⟨fun h => ?_, fun h hc => ?_, fun h hc => ?_⟩
  · simp [check_game_end, h]
  · cases turn <;> simp [check_game_end, h, hc, opp_color]
  · simp [check_game_end, h, hc]

set_option maxRecDepth 100000 in
/-- Witness for C2: the ongoing initial position, a concrete checkmate
won by Black, and a concrete stalemate. -/
theorem check_game_end_classification_witness :
    check_game_end initial_board .w = .Ongoing ∧
    check_game_end mate_board .w = .Checkmate .b ∧
    check_game_end stale_board .b = .Stalemate := by
  refine ⟨(check_game_end_classification initial_board .w).1 (by decide),
    (check_game_end_classification mate_board .w).2.1 (by decide) (by decide),
    (check_game_end_classification stale_board .b).2.2 (by decide) (by decide)⟩

end ChessGame

namespace ChessGame

/-- Helper: membership in a one-element append. -/
theorem mem_append_single {m x : Move} {acc : List Move}
    (h : m ∈ acc ++ [x]) : m ∈ acc ∨ m = x := by
  rcases List.mem_append.mp h with h | h
  · exact Or.inl h
  · exact Or.inr (List.mem_singleton.mp h)

/-- Helper: a fold whose step only ever appends moves satisfying `G`
produces, beyond its accumulator, only moves satisfying `G`. -/
theorem foldl_mem_or {β : Type} (G : Move → Prop)
    (f : List Move → β → List Move)
    (hf : ∀ acc x m, m ∈ f acc x → m ∈ acc ∨ G m) :
    ∀ (l : List β) (acc : List Move) (m : Move),
      m ∈ l.foldl f acc → m ∈ acc ∨ G m := by
  intro l
  induction l with
  | nil => exact fun acc m h => Or.inl h
  | cons x xs ih =>
    intro acc m h
    rcases ih (f acc x) m h with h' | h'
    · exact hf acc x m h'
    · exact Or.inr h'

/-- Helper: each move appended by `pawn_capture_step` starts at `sq` and
lands on an opposing piece. -/
theorem pawn_capture_step_ok (board : Board) (sq : Square) (p : Piece)
    (r c dir : Int) (acc : List Move) (dc : Int) (m : Move)
    (h : m ∈ pawn_capture_step board sq p r c dir acc dc) :
    m ∈ acc ∨ (m.1 = sq ∧ dest_ok board p.color m) := by
  unfold pawn_capture_step at h
  rcases h1 : toSquare? (r + dir) (c + dc) with _ | nsq
  · simp only [h1] at h; exact Or.inl h
  · simp only [h1] at h
    rcases h2 : board nsq with _ | q
    · simp only [h2] at h; exact Or.inl h
    · simp only [h2] at h
      by_cases h3 : q.color ≠ p.color
      · rw [if_pos h3] at h
        rcases mem_append_single h with h' | h'
        · exact Or.inl h'
        · subst h'
          refine Or.inr ⟨rfl, fun q' hq' => ?_⟩
          have hq2 : board nsq = some q' := hq'
          rw [h2] at hq2
          injection hq2 with e
          rw [← e]
          exact h3
      · rw [if_neg h3] at h; exact Or.inl h

/-- Helper: each move appended by `offset_step` starts at `sq` and lands
on an empty or opposing square. -/
theorem offset_step_ok (board : Board) (sq : Square) (p : Piece)
    (r c : Int) (acc : List Move) (d : Int × Int) (m : Move)
    (h : m ∈ offset_step board sq p r c acc d) :
    m ∈ acc ∨ (m.1 = sq ∧ dest_ok board p.color m) := by
  unfold offset_step at h
  rcases h1 : toSquare? (r + d.1) (c + d.2) with _ | nsq
  · simp only [h1] at h; exact Or.inl h
  · simp only [h1] at h
    rcases h2 : board nsq with _ | q
    · simp only [h2] at h
      rcases mem_append_single h with h' | h'
      · exact Or.inl h'
      · subst h'
        refine Or.inr ⟨rfl, fun q' hq' => ?_⟩
        have hq2 : board nsq = some q' := hq'
        rw [h2] at hq2
        cases hq2
    · simp only [h2] at h
      by_cases h3 : q.color ≠ p.color
      · rw [if_pos h3] at h
        rcases mem_append_single h with h' | h'
        · exact Or.inl h'
        · subst h'
          refine Or.inr ⟨rfl, fun q' hq' => ?_⟩
          have hq2 : board nsq = some q' := hq'
          rw [h2] at hq2
          injection hq2 with e
          rw [← e]
          exact h3
      · rw [if_neg h3] at h; exact Or.inl h

/-- Helper: each move produced by `slide_ray` starts at `sq` and lands on
an empty or opposing square. -/
theorem slide_ray_ok (board : Board) (sq : Square) (pcolor : Color)
    (dr dc : Int) :
    ∀ (fuel : Nat) (nr nc : Int) (m : Move),
      m ∈ slide_ray board sq pcolor dr dc nr nc fuel →
      m.1 = sq ∧ dest_ok board pcolor m := by
  intro fuel
  induction fuel with
  | zero => intro nr nc m h; simp [slide_ray] at h
  | succ n ih =>
    intro nr nc m h
    rw [slide_ray] at h
    rcases h1 : toSquare? nr nc with _ | nsq
    · simp only [h1] at h; simp at h
    · simp only [h1] at h
      rcases h2 : board nsq with _ | q
      · simp only [h2] at h
        rcases List.mem_cons.mp h with h' | h'
        · subst h'
          refine ⟨rfl, fun q' hq' => ?_⟩
          have hq2 : board nsq = some q' := hq'
          rw [h2] at hq2
          cases hq2
        · exact ih _ _ m h'
      · simp only [h2] at h
        by_cases h3 : q.color ≠ pcolor
        · rw [if_pos h3] at h
          rw [List.mem_singleton] at h
          subst h
          refine ⟨rfl, fun q' hq' => ?_⟩
          have hq2 : board nsq = some q' := hq'
          rw [h2] at hq2
          injection hq2 with e
          rw [← e]
          exact h3
        · rw [if_neg h3] at h; simp at h

/-- Helper: `slide_moves` only adds moves starting at `sq` landing on an
empty or opposing square. -/
theorem slide_moves_ok (board : Board) (sq : Square) (p : Piece)
    (acc : List Move) (deltas : List (Int × Int)) (m : Move)
    (h : m ∈ slide_moves board sq p acc deltas) :
    m ∈ acc ∨ (m.1 = sq ∧ dest_ok board p.color m) := by
  unfold slide_moves at h
  refine foldl_mem_or (fun m' => m'.1 = sq ∧ dest_ok board p.color m') _
    (fun acc' d m' hm' => ?_) deltas acc m h
  rcases List.mem_append.mp hm' with h' | h'
  · exact Or.inl h'
  · exact Or.inr (slide_ray_ok board sq p.color d.1 d.2 8 _ _ m' h')

/-- Helper: `knight_moves` only adds moves starting at `sq` landing on an
empty or opposing square. -/
theorem knight_moves_ok (board : Board) (sq : Square) (p : Piece)
    (acc : List Move) (m : Move) (h : m ∈ knight_moves board sq p acc) :
    m ∈ acc ∨ (m.1 = sq ∧ dest_ok board p.color m) := by
  unfold knight_moves at h
  exact foldl_mem_or (fun m' => m'.1 = sq ∧ dest_ok board p.color m') _
    (offset_step_ok board sq p sq.1.val sq.2.val) _ acc m h

/-- Helper: `king_moves` only adds moves starting at `sq` landing on an
empty or opposing square. -/
theorem king_moves_ok (board : Board) (sq : Square) (p : Piece)
    (acc : List Move) (m : Move) (h : m ∈ king_moves board sq p acc) :
    m ∈ acc ∨ (m.1 = sq ∧ dest_ok board p.color m) := by
  unfold king_moves at h
  exact foldl_mem_or (fun m' => m'.1 = sq ∧ dest_ok board p.color m') _
    (offset_step_ok board sq p sq.1.val sq.2.val) _ acc m h

/-- Helper: `bishop_moves` only adds moves starting at `sq` landing on an
empty or opposing square. -/
theorem bishop_moves_ok (board : Board) (sq : Square) (p : Piece)
    (acc : List Move) (m : Move) (h : m ∈ bishop_moves board sq p acc) :
    m ∈ acc ∨ (m.1 = sq ∧ dest_ok board p.color m) :=
  slide_moves_ok board sq p acc _ m h

/-- Helper: `rook_moves` only adds moves starting at `sq` landing on an
empty or opposing square. -/
theorem rook_moves_ok (board : Board) (sq : Square) (p : Piece)
    (acc : List Move) (m : Move) (h : m ∈ rook_moves board sq p acc) :
    m ∈ acc ∨ (m.1 = sq ∧ dest_ok board p.color m) :=
  slide_moves_ok board sq p acc _ m h

/-- Helper: `queen_moves` only adds moves starting at `sq` landing on an
empty or opposing square. -/
theorem queen_moves_ok (board : Board) (sq : Square) (p : Piece)
    (acc : List Move) (m : Move) (h : m ∈ queen_moves board sq p acc) :
    m ∈ acc ∨ (m.1 = sq ∧ dest_ok board p.color m) :=
  slide_moves_ok board sq p acc _ m h

/-- Helper: `pawn_moves` only adds moves starting at `sq` landing on an
empty square (forward moves) or an opposing piece (captures). -/
theorem pawn_moves_ok (board : Board) (sq : Square) (p : Piece)
    (acc : List Move) (m : Move) (h : m ∈ pawn_moves board sq p acc) :
    m ∈ acc ∨ (m.1 = sq ∧ dest_ok board p.color m) := by
  have hempty : ∀ (s : Square), board s = none → ∀ m' : Move, m' = (sq, s) →
      m'.1 = sq ∧ dest_ok board p.color m' := by
    intro s hs m' hm'
    subst hm'
    refine ⟨rfl, fun q' hq' => ?_⟩
    have hq2 : board s = some q' := hq'
    rw [hs] at hq2
    cases hq2
  simp only [pawn_moves] at h
  rcases foldl_mem_or (fun m' => m'.1 = sq ∧ dest_ok board p.color m') _
      (pawn_capture_step_ok board sq p _ _ _) _ _ m h with h' | h'
  swap
  · exact Or.inr h'
  · rcases h1 : toSquare? (↑sq.1 + (if p.color = Color.w then (-1 : Int) else 1))
        ↑sq.2 with _ | sq1
    · simp only [h1] at h'; exact Or.inl h'
    · simp only [h1] at h'
      by_cases h2 : board sq1 = none
      · rw [if_pos h2] at h'
        by_cases h3 : (↑sq.1 : Int) = (if p.color = Color.w then 6 else 1)
        · rw [if_pos h3] at h'
          rcases h4 : toSquare?
              (↑sq.1 + 2 * (if p.color = Color.w then (-1 : Int) else 1)) ↑sq.2
              with _ | sq2
          · simp only [h4] at h'
            rcases mem_append_single h' with h'' | h''
            · exact Or.inl h''
            · exact Or.inr (hempty sq1 h2 m h'')
          · simp only [h4] at h'
            by_cases h5 : board sq2 = none
            · rw [if_pos h5] at h'
              rcases mem_append_single h' with h'' | h''
              · rcases mem_append_single h'' with h3' | h3'
                · exact Or.inl h3'
                · exact Or.inr (hempty sq1 h2 m h3')
              · exact Or.inr (hempty sq2 h5 m h'')
            · rw [if_neg h5] at h'
              rcases mem_append_single h' with h'' | h''
              · exact Or.inl h''
              · exact Or.inr (hempty sq1 h2 m h'')
        · rw [if_neg h3] at h'
          rcases mem_append_single h' with h'' | h''
          · exact Or.inl h''
          · exact Or.inr (hempty sq1 h2 m h'')
      · rw [if_neg h2] at h'; exact Or.inl h'

/-- Helper: each move added by `gen_step` comes from a square holding a
piece of the scanned color and lands off that color's pieces. -/
theorem gen_step_ok (board : Board) (color : Color) (acc : List Move)
    (sq : Square) (m : Move) (h : m ∈ gen_step board color acc sq) :
    m ∈ acc ∨
      ((∃ p, board m.1 = some p ∧ p.color = color) ∧ dest_ok board color m) := by
  unfold gen_step at h
  rcases hb : board sq with _ | p
  · simp only [hb] at h; exact Or.inl h
  · simp only [hb] at h
    by_cases hc : p.color = color
    · rw [if_pos hc] at h
      have key : m ∈ acc ∨ (m.1 = sq ∧ dest_ok board p.color m) := by
        cases hk : p.kind
        case P => exact pawn_moves_ok board sq p acc m (by rw [hk] at h; exact h)
        case N => exact knight_moves_ok board sq p acc m (by rw [hk] at h; exact h)
        case B => exact bishop_moves_ok board sq p acc m (by rw [hk] at h; exact h)
        case R => exact rook_moves_ok board sq p acc m (by rw [hk] at h; exact h)
        case Q => exact queen_moves_ok board sq p acc m (by rw [hk] at h; exact h)
        case K => exact king_moves_ok board sq p acc m (by rw [hk] at h; exact h)
      rcases key with h' | ⟨h1, h2⟩
      · exact Or.inl h'
      · exact Or.inr ⟨⟨p, by rw [h1]; exact hb, hc⟩, hc ▸ h2⟩
    · rw [if_neg hc] at h; exact Or.inl h

/-- Helper: every pseudo-legal move comes from a square holding a piece of
the queried color and lands on a square not holding that color. -/
theorem pseudo_moves_ok (board : Board) (color : Color) (m : Move)
    (h : m ∈ generate_pseudo_legal_moves board color) :
    (∃ p, board m.1 = some p ∧ p.color = color) ∧ dest_ok board color m := by
  unfold generate_pseudo_legal_moves at h
  rcases foldl_mem_or
      (fun m' => (∃ p, board m'.1 = some p ∧ p.color = color) ∧
        dest_ok board color m')
      _ (gen_step_ok board color) allSquares [] m h with h' | h'
  · cases h'
  · exact h'

/-- C9: every pseudo-legal move has in-bounds source and destination
coordinates, its source square holds a piece of the moving color, and its
destination square does not hold a piece of that color. -/
theorem pseudo_legal_moves_shape (board : Board) (color : Color) (m : Move)
    (h : m ∈ generate_pseudo_legal_moves board color) :
    m.1.1.val < 8 ∧ m.1.2.val < 8 ∧ m.2.1.val < 8 ∧ m.2.2.val < 8 ∧
    (∃ p, board m.1 = some p ∧ p.color = color) ∧
    (∀ q, board m.2 = some q → q.color ≠ color) := by
  obtain ⟨h1, h2⟩ := pseudo_moves_ok board color m h
  exact ⟨m.1.1.isLt, m.1.2.isLt, m.2.1.isLt, m.2.2.isLt, h1, h2⟩

set_option maxRecDepth 40000 in
/-- Witness for C9: the pseudo-legal pawn move a2–a3 on the initial board. -/
theorem pseudo_legal_moves_shape_witness :
    ((((6 : Fin 8), (0 : Fin 8)), ((5 : Fin 8), (0 : Fin 8))) : Move) ∈
        generate_pseudo_legal_moves initial_board .w ∧
    (∃ p, initial_board ((6 : Fin 8), (0 : Fin 8)) = some p ∧ p.color = .w) :=
  ⟨by decide,
    (pseudo_legal_moves_shape initial_board .w
      (((6 : Fin 8), (0 : Fin 8)), ((5 : Fin 8), (0 : Fin 8)))
      (by decide)).2.2.2.2.1⟩

end ChessGame

namespace ChessGame

/-- Helper invariant of the `ai_choose_move` loop: starting from a best
score `B` achieved by every move of the non-empty candidate list `M`,
folding `ai_step` over `l` yields a best score `B'` at least `B`, a
non-empty candidate list whose members come from `M` or `l` and score
exactly `B'`, with every move of `l` scoring at most `B'`. -/
theorem ai_fold_invariant (score : Move → Int) :
    ∀ (l : List Move) (B : Int) (M : List Move),
      M ≠ [] → (∀ m ∈ M, score m = B) →
      ∃ B' : Int,
        (l.foldl (ai_step score) (some B, M)).1 = some B' ∧
        (l.foldl (ai_step score) (some B, M)).2 ≠ [] ∧
        (∀ m ∈ (l.foldl (ai_step score) (some B, M)).2,
          score m = B' ∧ (m ∈ M ∨ m ∈ l)) ∧
        B ≤ B' ∧ (∀ m ∈ l, score m ≤ B') := by
  intro l
  induction l with
  | nil =>
    intro B M hM hscore
    exact ⟨B, rfl, hM, fun m hm => ⟨hscore m hm, Or.inl hm⟩, le_refl B, by simp⟩
  | cons x xs ih =>
    intro B M hM hscore
    rcases lt_trichotomy B (score x) with hlt | heq | hgt
    · have hstep : ai_step score (some B, M) x = (some (score x), [x]) := by
        simp only [ai_step]
        rw [if_pos hlt]
      rw [List.foldl_cons, hstep]
      obtain ⟨B', e1, e2, e3, e4, e5⟩ := ih (score x) [x] (by simp) (by simp)
      refine ⟨B', e1, e2, fun m hm => ?_, le_trans (le_of_lt hlt) e4,
        fun m hm => ?_⟩
      · obtain ⟨hs, hm'⟩ := e3 m hm
        refine ⟨hs, Or.inr ?_⟩
        rcases hm' with hm' | hm'
        · rw [List.mem_singleton] at hm'
          subst hm'
          exact List.mem_cons_self _ _
        · exact List.mem_cons_of_mem _ hm'
      · rcases List.mem_cons.mp hm with hm' | hm'
        · subst hm'
          exact e4
        · exact e5 m hm'
    · have hstep : ai_step score (some B, M) x = (some B, M ++ [x]) := by
        simp only [ai_step]
        rw [if_neg (by rw [← heq]; exact lt_irrefl B), if_pos heq.symm]
      rw [List.foldl_cons, hstep]
      obtain ⟨B', e1, e2, e3, e4, e5⟩ := ih B (M ++ [x]) (by simp)
        (fun m hm => by
          rcases mem_append_single hm with hm' | hm'
          · exact hscore m hm'
          · subst hm'
            exact heq.symm)
      refine ⟨B', e1, e2, fun m hm => ?_, e4, fun m hm => ?_⟩
      · obtain ⟨hs, hm'⟩ := e3 m hm
        refine ⟨hs, ?_⟩
        rcases hm' with hm' | hm'
        · rcases mem_append_single hm' with h2 | h2
          · exact Or.inl h2
          · subst h2
            exact Or.inr (List.mem_cons_self _ _)
        · exact Or.inr (List.mem_cons_of_mem _ hm')
      · rcases List.mem_cons.mp hm with hm' | hm'
        · subst hm'
          rw [heq] at e4
          exact e4
        · exact e5 m hm'
    · have hstep : ai_step score (some B, M) x = (some B, M) := by
        simp only [ai_step]
        rw [if_neg (by exact not_lt_of_gt hgt), if_neg (ne_of_lt hgt)]
      rw [List.foldl_cons, hstep]
      obtain ⟨B', e1, e2, e3, e4, e5⟩ := ih B M hM hscore
      refine ⟨B', e1, e2, fun m hm => ?_, e4, fun m hm => ?_⟩
      · obtain ⟨hs, hm'⟩ := e3 m hm
        exact ⟨hs, hm'.imp id (List.mem_cons_of_mem _)⟩
      · rcases List.mem_cons.mp hm with hm' | hm'
        · subst hm'
          exact le_trans (le_of_lt hgt) e4
        · exact e5 m hm'

/-- Helper: for a non-empty candidate list, the fold of `ai_step` started
from `(None, [])` yields a non-empty set of best moves; the element
selected at any index is a member of the list and maximizes the score. -/
theorem ai_select_ok (score : Move → Int) (l : List Move) (hl : l ≠ [])
    (k : Nat) :
    (l.foldl (ai_step score) (none, [])).2 ≠ [] ∧
    ((l.foldl (ai_step score) (none, [])).2).getD
        (k % (l.foldl (ai_step score) (none, [])).2.length) dummy_move ∈ l ∧
    ∀ m' ∈ l, score m' ≤
      score (((l.foldl (ai_step score) (none, [])).2).getD
        (k % (l.foldl (ai_step score) (none, [])).2.length) dummy_move) := by
  rcases l with _ | ⟨h0, t⟩
  · exact absurd rfl hl
  · have hfold : (h0 :: t).foldl (ai_step score) (none, []) =
        t.foldl (ai_step score) (some (score h0), [h0]) := by
      rw [List.foldl_cons]
      rfl
    obtain ⟨B', e1, e2, e3, e4, e5⟩ :=
      ai_fold_invariant score t (score h0) [h0] (by simp) (by simp)
    rw [hfold]
    have hlen : 0 < (t.foldl (ai_step score) (some (score h0), [h0])).2.length :=
      List.length_pos.mpr e2
    have hidx : k % (t.foldl (ai_step score) (some (score h0), [h0])).2.length <
        (t.foldl (ai_step score) (some (score h0), [h0])).2.length :=
      Nat.mod_lt _ hlen
    have hsel : ((t.foldl (ai_step score) (some (score h0), [h0])).2).getD
        (k % (t.foldl (ai_step score) (some (score h0), [h0])).2.length)
        dummy_move ∈ (t.foldl (ai_step score) (some (score h0), [h0])).2 := by
      rw [List.getD_eq_getElem?_getD, List.getElem?_eq_getElem hidx]
      exact List.getElem_mem hidx
    obtain ⟨hscore_sel, hmem_sel⟩ := e3 _ hsel
    refine ⟨e2, ?_, fun m' hm' => ?_⟩
    · rcases hmem_sel with hm | hm
      · rw [List.mem_singleton] at hm
        rw [hm]
        exact List.mem_cons_self _ _
      · exact List.mem_cons_of_mem _ hm
    · rw [hscore_sel]
      rcases List.mem_cons.mp hm' with hm | hm
      · subst hm
        exact e4
      · exact e5 m' hm

end ChessGame

namespace ChessGame

/-- C3: the AI selector returns `none` exactly when there is no legal
move; otherwise every move it can return (for any value of the
random-choice index `k`) is a legal move maximizing the signed post-move
material score over all legal moves. -/
theorem ai_choose_move_spec (board : Board) (color : Color) (k : Nat) :
    (ai_choose_move board color k = none ↔
      generate_legal_moves board color = []) ∧
    ∀ m, ai_choose_move board color k = some m →
      m ∈ generate_legal_moves board color ∧
      ∀ m' ∈ generate_legal_moves board color,
        evaluate_material (make_move board m') *
            (if color = Color.w then 1 else -1) ≤
          evaluate_material (make_move board m) *
            (if color = Color.w then 1 else -1) := by
  by_cases hl : generate_legal_moves board color = []
  · constructor
    · simp [ai_choose_move, hl]
    · intro m hm
      simp [ai_choose_move, hl] at hm
  · obtain ⟨hbm, hmem, hmax⟩ := ai_select_ok
      (fun m => evaluate_material (make_move board m) *
        (if color = Color.w then 1 else -1))
      (generate_legal_moves board color) hl k
    have heq : ai_choose_move board color k =
        some ((((generate_legal_moves board color).foldl
            (ai_step fun m => evaluate_material (make_move board m) *
              (if color = Color.w then 1 else -1)) (none, [])).2).getD
          (k % ((generate_legal_moves board color).foldl
            (ai_step fun m => evaluate_material (make_move board m) *
              (if color = Color.w then 1 else -1)) (none, [])).2.length)
          dummy_move) := by
      simp only [ai_choose_move]
      rw [if_neg (by simp [hl]), if_neg (by simpa using hbm)]
    constructor
    · rw [heq]
      simp [hl]
    · intro m hm
      rw [heq] at hm
      injection hm with e
      rw [← e]
      exact ⟨hmem, hmax⟩

set_option maxRecDepth 100000 in
/-- Witness for C3: on the initial board with index 0, comparing the
selected move a2–a3 against the legal move e2–e4. -/
theorem ai_choose_move_spec_witness :
    (ai_choose_move initial_board .w 0 = none ↔
      generate_legal_moves initial_board .w = []) ∧
    ((((6 : Fin 8), (0 : Fin 8)), ((5 : Fin 8), (0 : Fin 8))) : Move) ∈
        generate_legal_moves initial_board .w ∧
    evaluate_material (make_move initial_board
        (((6 : Fin 8), (4 : Fin 8)), ((4 : Fin 8), (4 : Fin 8)))) *
        (if Color.w = Color.w then 1 else -1) ≤
      evaluate_material (make_move initial_board
        (((6 : Fin 8), (0 : Fin 8)), ((5 : Fin 8), (0 : Fin 8)))) *
        (if Color.w = Color.w then 1 else -1) := by
  have h := ai_choose_move_spec initial_board .w 0
  have h2 := h.2 (((6 : Fin 8), (0 : Fin 8)), ((5 : Fin 8), (0 : Fin 8)))
    (by decide)
  exact ⟨h.1, h2.1, h2.2 _ (by decide)⟩

/-- Helper: `allSquares` lists each square exactly once. -/
theorem allSquares_nodup : allSquares.Nodup := by decide

/-- Helper: every square occurs in `allSquares`. -/
theorem allSquares_complete : ∀ sq : Square, sq ∈ allSquares := by decide

/-- Helper: `allSquares` as a finset is the universe of squares. -/
theorem allSquares_toFinset : allSquares.toFinset = Finset.univ :=
  Finset.eq_univ_iff_forall.mpr fun sq =>
    List.mem_toFinset.mpr (allSquares_complete sq)

/-- Helper: `evaluate_material` is the sum of per-square signed scores. -/
theorem evaluate_material_eq_sum (board : Board) :
    evaluate_material board = ∑ sq : Square, square_score (board sq) := by
  have h1 : evaluate_material board =
      allSquares.foldl (fun s sq => s + square_score (board sq)) 0 := by
    unfold evaluate_material
    congr 1
    funext s sq
    rcases h : board sq with _ | p <;> simp [square_score, h]
  rw [h1, ← List.foldl_map, ← List.sum_eq_foldl,
    ← List.sum_toFinset _ allSquares_nodup, allSquares_toFinset]

/-- Helper: per-square scoring commutes with a board update. -/
theorem square_score_update (G : Board) (s : Square) (v : Option Piece) :
    (fun sq => square_score (Function.update G s v sq)) =
      Function.update (fun sq => square_score (G sq)) s (square_score v) := by
  funext sq
  by_cases h : sq = s
  · subst h
    simp [Function.update_same]
  · simp [Function.update_noteq h]

/-- Helper: summing a function updated at two distinct points. -/
theorem sum_update_two (G : Square → Int) (s1 s2 : Square) (v1 v2 : Int)
    (hne : s1 ≠ s2) :
    ∑ sq : Square, Function.update (Function.update G s1 v1) s2 v2 sq =
      (∑ sq : Square, G sq) - G s1 - G s2 + v1 + v2 := by
  have h2 : s1 ∈ Finset.univ \ {s2} := by
    rw [Finset.mem_sdiff]
    exact ⟨Finset.mem_univ s1, by simpa using hne⟩
  rw [Finset.sum_update_of_mem (Finset.mem_univ s2),
    Finset.sum_update_of_mem h2]
  have h3 : ∑ sq : Square, G sq =
      G s2 + ∑ sq ∈ Finset.univ \ {s2}, G sq :=
    Finset.sum_eq_add_sum_diff_singleton (Finset.mem_univ s2) G
  have h4 : ∑ sq ∈ Finset.univ \ {s2}, G sq =
      G s1 + ∑ sq ∈ (Finset.univ \ {s2}) \ {s1}, G sq :=
    Finset.sum_eq_add_sum_diff_singleton h2 G
  rw [h3, h4]
  ring

/-- Helper: without a promotion, `make_move` is exactly "clear the source,
put the moved piece on the destination". -/
theorem make_move_no_promo (board : Board) (m : Move) (p : Piece)
    (hsrc : board m.1 = some p)
    (hw : ¬(p.color = Color.w ∧ p.kind = Kind.P ∧ m.2.1.val = 0))
    (hb : ¬(p.color = Color.b ∧ p.kind = Kind.P ∧ m.2.1.val = 7)) :
    make_move board m =
      Function.update (Function.update board m.1 none) m.2 (some p) := by
  by_cases hP : p.kind = .P
  · have hw' : ¬(p.color = Color.w ∧ m.2.1.val = 0) :=
      fun h => hw ⟨h.1, hP, h.2⟩
    have hb' : ¬(p.color = Color.b ∧ m.2.1.val = 7) :=
      fun h => hb ⟨h.1, hP, h.2⟩
    simp [make_move, clone_board_eq, hsrc, hP, hw', hb']
  · simp [make_move, clone_board_eq, hsrc, hP]

/-- C6 (amended): the material score of the initial board is 0, and
capturing a Black Knight with a White piece increases the score by
exactly +3, provided the capture is not also a promotion (a White pawn
landing on row 0, which additionally swaps the pawn for a queen). -/
theorem evaluate_material_spec :
    evaluate_material initial_board = 0 ∧
    ∀ (board : Board) (m : Move) (p q : Piece),
      board m.1 = some p → p.color = Color.w →
      board m.2 = some q → q.color = Color.b → q.kind = Kind.N →
      ¬(p.kind = Kind.P ∧ m.2.1.val = 0) →
      evaluate_material (make_move board m) = evaluate_material board + 3 := by
  refine ⟨by decide, ?_⟩
  intro board m p q hsrc hpw hdst hqb hqn hnp
  have hne : m.1 ≠ m.2 := by
    intro e
    rw [e] at hsrc
    rw [hsrc] at hdst
    injection hdst with e2
    rw [← e2] at hqb
    rw [hpw] at hqb
    cases hqb
  have heq := make_move_no_promo board m p hsrc
    (fun h => hnp ⟨h.2.1, h.2.2⟩)
    (fun h => by rw [hpw] at h; cases h.1)
  rw [heq, evaluate_material_eq_sum, evaluate_material_eq_sum,
    square_score_update (Function.update board m.1 none) m.2 (some p),
    square_score_update board m.1 none,
    sum_update_two _ _ _ _ _ hne]
  simp [hsrc, hdst, square_score, hqb, hqn, hpw, piece_value]
  ring

/-- Counterexample for C6 as stated: a White pawn capturing a Black
Knight while promoting changes the material score by +11, not +3. -/
theorem material_counterexample :
    promo_capture_board ((1 : Fin 8), (0 : Fin 8)) = some ⟨.w, .P⟩ ∧
    promo_capture_board ((0 : Fin 8), (1 : Fin 8)) = some ⟨.b, .N⟩ ∧
    evaluate_material promo_capture_board = -2 ∧
    evaluate_material (make_move promo_capture_board
      (((1 : Fin 8), (0 : Fin 8)), ((0 : Fin 8), (1 : Fin 8)))) = 9 ∧
    ¬ evaluate_material (make_move promo_capture_board
        (((1 : Fin 8), (0 : Fin 8)), ((0 : Fin 8), (1 : Fin 8)))) =
      evaluate_material promo_capture_board + 3 := by decide

/-- Witness for C6 (amended): a White rook capturing a Black knight along
a rank gains exactly 3. -/
theorem evaluate_material_spec_witness :
    evaluate_material (make_move rook_knight_board
        (((4 : Fin 8), (4 : Fin 8)), ((4 : Fin 8), (0 : Fin 8)))) =
      evaluate_material rook_knight_board + 3 :=
  evaluate_material_spec.2 rook_knight_board
    (((4 : Fin 8), (4 : Fin 8)), ((4 : Fin 8), (0 : Fin 8))) ⟨.w, .R⟩ ⟨.b, .N⟩
    (by decide) rfl (by decide) rfl rfl (by decide)

end ChessGame
